import Mathlib

/-
Verification development for the Middle pendant BLE sync client (sync.py).

The Python source is shallowly embedded: bytes become `List Nat` (each entry
a byte value), Python's unbounded ints become `Int`/`Nat`, monotonic-clock
readings become `ℚ`, and the BLE transport is an explicit environment that
supplies read values, chunk deliveries and write outcomes.  Exceptions that
propagate out of `sync_recordings` are modelled by `Option`/outcome tags.
-/

-- ## Constants (sync.py lines 43-57)

def IMA_HEADER_SIZE : Nat := 4
def MAX_FILE_TRANSFER_ATTEMPTS : Nat := 3
def TRANSFER_STALL_TIMEOUT_SECONDS : ℚ := 2
def TRANSFER_TOTAL_TIMEOUT_SECONDS : ℚ := 120

-- ## IMA ADPCM tables (sync.py lines 64-74)

def ADPCM_STEP_TABLE : List Nat :=
  [7, 8, 9, 10, 11, 12, 13, 14, 16, 17, 19, 21, 23, 25, 28, 31, 34, 37,
   41, 45, 50, 55, 60, 66, 73, 80, 88, 97, 107, 118, 130, 143, 157, 173,
   190, 209, 230, 253, 279, 307, 337, 371, 408, 449, 494, 544, 598, 658,
   724, 796, 876, 963, 1060, 1166, 1282, 1411, 1552, 1707, 1878, 2066,
   2272, 2499, 2749, 3024, 3327, 3660, 4026, 4428, 4871, 5358, 5894, 6484,
   7132, 7845, 8630, 9493, 10442, 11487, 12635, 13899, 15289, 16818, 18500,
   20350, 22385, 24623, 27086, 29794, 32767]

def ADPCM_INDEX_TABLE : List Int :=
  [-1, -1, -1, -1, 2, 4, 6, 8, -1, -1, -1, -1, 2, 4, 6, 8]

/-- Running decoder state of `decode_ima_adpcm`: the predictor
(`predicted_sample`, a Python int clamped to the 16-bit signed range after
every update) and the step-table index (clamped to `[0, 88]`). -/
structure AdpcmState where
  predicted_sample : Int
  step_index : Nat
deriving DecidableEq

/-- One nibble of the loop body of `decode_ima_adpcm` (sync.py lines 98-120):
step lookup, conditional delta accumulation in source order, sign
application, predictor clamp, and the index-table adjustment of
`step_index` clamped to `[0, 88]`. -/
def adpcmDecodeNibble (st : AdpcmState) (nibble : Nat) : AdpcmState :=
  let step := ADPCM_STEP_TABLE.getD st.step_index 0
  let delta1 := step >>> 3
  let delta2 := if nibble &&& 4 ≠ 0 then delta1 + step else delta1
  let delta3 := if nibble &&& 2 ≠ 0 then delta2 + (step >>> 1) else delta2
  let delta := if nibble &&& 1 ≠ 0 then delta3 + (step >>> 2) else delta3
  let p : Int :=
    if nibble &&& 8 ≠ 0 then st.predicted_sample - (delta : Int)
    else st.predicted_sample + (delta : Int)
  let pc : Int := max (-32768) (min 32767 p)
  let si : Int := (st.step_index : Int) + ADPCM_INDEX_TABLE.getD nibble 0
  ⟨pc, (max 0 (min 88 si)).toNat⟩

/-- Tail of the `for i in range(sample_count)` loop of `decode_ima_adpcm`
(sync.py lines 88-122), starting at sample index `i` with `remaining =
sample_count - i` iterations left.  The loop breaks when `i // 2` runs past
the input; each iteration selects the low nibble of byte `i // 2` for even
`i` and the high nibble for odd `i`, updates the decoder state, and emits
the clamped predictor masked to 16 bits as two little-endian bytes. -/
def decodeFrom (data : List Nat) : Nat → Nat → AdpcmState → List Nat
  | 0, _, _ => []
  | remaining + 1, i, st =>
    let byte_index := i / 2
    if byte_index < data.length then
      let b := data.getD byte_index 0
      let nibble := if i % 2 = 0 then b &&& 0x0F else (b >>> 4) &&& 0x0F
      let st2 := adpcmDecodeNibble st nibble
      let sample_le := (st2.predicted_sample % 65536).toNat
      (sample_le &&& 0xFF) :: ((sample_le >>> 8) &&& 0xFF) ::
        decodeFrom data remaining (i + 1) st2
    else []

/-- Embeds `decode_ima_adpcm` (sync.py lines 77-122): predictor and
step index start at 0 and the loop runs over `range(sample_count)`. -/
def decode_ima_adpcm (data : List Nat) (sample_count : Nat) : List Nat :=
  decodeFrom data sample_count 0 ⟨0, 0⟩

-- ## Specification-side restatement of the ADPCM decoder

/-- Nibble stream of a byte string, low nibble of each byte first. -/
def nibbleStream (data : List Nat) : List Nat :=
  data.flatMap (fun b => [b &&& 0x0F, (b >>> 4) &&& 0x0F])

/-- Delta magnitude as the spec words it: `step>>3` plus `step` when bit 2 is
set, plus `step>>1` when bit 1 is set, plus `step>>2` when bit 0 is set. -/
def specDelta (step nibble : Nat) : Nat :=
  step >>> 3 + (if nibble &&& 4 ≠ 0 then step else 0) +
    (if nibble &&& 2 ≠ 0 then step >>> 1 else 0) +
    (if nibble &&& 1 ≠ 0 then step >>> 2 else 0)

/-- One decoding step as the spec words it: subtract the delta when bit 3 is
set, else add it; clamp the predictor to `[-32768, 32767]`; move the step
index by the 16-entry index table, clamped to `[0, 88]`. -/
def specStep (st : AdpcmState) (nibble : Nat) : AdpcmState :=
  let step := ADPCM_STEP_TABLE.getD st.step_index 0
  let delta := specDelta step nibble
  let p : Int :=
    if nibble &&& 8 ≠ 0 then st.predicted_sample - (delta : Int)
    else st.predicted_sample + (delta : Int)
  let pc : Int := min 32767 (max (-32768) p)
  let si : Int := (st.step_index : Int) + ADPCM_INDEX_TABLE.getD nibble 0
  ⟨pc, (min 88 (max 0 si)).toNat⟩

/-- Little-endian bytes of the 16-bit two's complement of a predictor. -/
def emitLE16 (p : Int) : List Nat :=
  [(p % 65536).toNat % 256, (p % 65536).toNat / 256]

/-- Decode a nibble list: emit one clamped predictor per nibble. -/
def decodeNibbles : AdpcmState → List Nat → List Nat
  | _, [] => []
  | st, nibble :: rest =>
    let st2 := specStep st nibble
    emitLE16 st2.predicted_sample ++ decodeNibbles st2 rest

/-- The ADPCM decoder as the spec words it: process the first `sample_count`
nibbles of the low-nibble-first stream from a fresh state. -/
def decode_ima_adpcm_specModel (data : List Nat) (sample_count : Nat) : List Nat :=
  decodeNibbles ⟨0, 0⟩ ((nibbleStream data).take sample_count)

-- ## PCM8 decoder variant

/-- Modelled from the spec: the PCM8 decoder variant of the audio decoder is
not present in sync.py (this client ships only the ADPCM variant; the PCM8
variant belongs to the firmware generation selected statically).  Per §4.3
of the spec, each unsigned 8-bit mono sample is centred by subtracting 128,
left-shifted 8 bits (multiplied by `2 ^ 8`) into a signed 16-bit value, and
emitted little-endian. -/
def decode_pcm8 (data : List Nat) : List Nat :=
  data.flatMap (fun u =>
    let v : Int := ((u : Int) - 128) * 2 ^ 8
    emitLE16 v)

-- ## MP3 encoding front end

/-- Little-endian uint32 of exactly four bytes; `none` models the
`struct.error` that `struct.unpack` raises on any other length. -/
def unpack_u32_le (bs : List Nat) : Option Nat :=
  match bs with
  | [b0, b1, b2, b3] => some (b0 + b1 * 256 + b2 * 65536 + b3 * 16777216)
  | _ => none

/-- Embeds the decoding front end of `encode_mp3_from_ima` (sync.py lines
125-129): unpack the 4-byte little-endian sample-count header from
`ima_data[:IMA_HEADER_SIZE]`, strip the header, and decode the ADPCM
payload.  The external lame encoder is outside the model, so the value
returned is the PCM16 byte list handed to it; `none` models the
`struct.error` escaping when fewer than four header bytes exist. -/
def encode_mp3_from_ima_pcm (ima_data : List Nat) : Option (List Nat) :=
  match unpack_u32_le (ima_data.take IMA_HEADER_SIZE) with
  | none => none
  | some sample_count =>
      some (decode_ima_adpcm (ima_data.drop IMA_HEADER_SIZE) sample_count)

-- ## Streaming loop (sync.py lines 274-287)

/-- One iteration's environment for the streaming wait loop: the monotonic
clock reading taken at the loop head (sync.py line 275) and the chunk the
`on_audio_data` callback delivers during the wait, `none` when
`asyncio.wait_for` times out instead. -/
structure WaitStep where
  now : ℚ
  arrival : Option (List Nat)
deriving DecidableEq

/-- What one loop-head check of the streaming loop did: exit because enough
bytes accumulated, raise the total-timeout error, or perform one
`asyncio.wait_for` with the recorded elapsed time and timeout argument. -/
inductive StreamAction where
  | exitSuccess : StreamAction
  | raiseTotal : ℚ → StreamAction
  | waited : ℚ → ℚ → Option (List Nat) → StreamAction
deriving DecidableEq

/-- Trace record of one streaming-loop iteration: `received_total_bytes` as
checked at the loop head, and the action taken. -/
structure StreamStep where
  totalAtCheck : Nat
  action : StreamAction
deriving DecidableEq

/-- How the streaming loop ended.  `outOfEvents` is a model artifact: the
environment listed no further wait outcomes (a real execution would still
be blocked in `asyncio.wait_for`). -/
inductive StreamOutcome where
  | success : StreamOutcome
  | totalTimeout : StreamOutcome
  | stallTimeout : StreamOutcome
  | outOfEvents : StreamOutcome
deriving DecidableEq

/-- Result of the streaming loop: outcome, the chunk buffer
`received_chunks`, the counters `received_total_bytes` and `chunk_count`,
and the per-iteration trace. -/
structure StreamResult where
  outcome : StreamOutcome
  received : List (List Nat)
  receivedTotalBytes : Nat
  chunkCount : Nat
  trace : List StreamStep
deriving DecidableEq

/-- Prepend the record of the current iteration to a later iteration's
result. -/
def consTrace (s : StreamStep) (r : StreamResult) : StreamResult :=
  ⟨r.outcome, r.received, r.receivedTotalBytes, r.chunkCount, s :: r.trace⟩

/-- Embeds the `while received_total_bytes < expected_size` loop of
`sync_recordings` (sync.py lines 274-287).  At each head check: exit when
enough bytes accumulated; else with `elapsed = now - transfer_start` and
`remaining_total = TRANSFER_TOTAL_TIMEOUT_SECONDS - elapsed` (the Python
locals, written out here), raise `TimeoutError` when `remaining_total <= 0`;
else wait with timeout `min(TRANSFER_STALL_TIMEOUT_SECONDS,
remaining_total)`.  A delivered chunk is appended by `on_audio_data`
(lines 219-230), which also bumps both counters; a wait that times out ends
the attempt via the `except TimeoutError` handler. -/
def streamLoop (expected_size : Nat) (transfer_start : ℚ) :
    List WaitStep → List (List Nat) → Nat → Nat → StreamResult
  | events, received, total, count =>
    if expected_size ≤ total then
      ⟨.success, received, total, count, [⟨total, .exitSuccess⟩]⟩
    else
      match events with
      | [] => ⟨.outOfEvents, received, total, count, []⟩
      | e :: rest =>
        if TRANSFER_TOTAL_TIMEOUT_SECONDS - (e.now - transfer_start) ≤ 0 then
          ⟨.totalTimeout, received, total, count,
            [⟨total, .raiseTotal (e.now - transfer_start)⟩]⟩
        else
          match e.arrival with
          | none =>
            ⟨.stallTimeout, received, total, count,
              [⟨total, .waited (e.now - transfer_start)
                (min TRANSFER_STALL_TIMEOUT_SECONDS
                  (TRANSFER_TOTAL_TIMEOUT_SECONDS - (e.now - transfer_start)))
                none⟩]⟩
          | some chunk =>
            consTrace
              ⟨total, .waited (e.now - transfer_start)
                (min TRANSFER_STALL_TIMEOUT_SECONDS
                  (TRANSFER_TOTAL_TIMEOUT_SECONDS - (e.now - transfer_start)))
                (some chunk)⟩
              (streamLoop expected_size transfer_start rest
                (received ++ [chunk]) (total + chunk.length) (count + 1))

-- ## Per-attempt state and execution (sync.py lines 205-302)

/-- The per-attempt accumulators reset at the top of the attempt loop
(sync.py lines 212-216): the chunk buffer and both counters. -/
structure AttemptState where
  received_chunks : List (List Nat)
  chunk_count : Nat
  received_total_bytes : Nat
deriving DecidableEq

/-- Fresh per-attempt state: empty buffer, zero chunks, zero bytes. -/
def attemptInit : AttemptState := ⟨[], 0, 0⟩

/-- Deliveries of `on_audio_data` applied to an attempt state: each chunk is
appended and both counters are bumped. -/
def deliverChunks (st : AttemptState) (chunks : List (List Nat)) : AttemptState :=
  chunks.foldl
    (fun s c => ⟨s.received_chunks ++ [c], s.chunk_count + 1,
      s.received_total_bytes + c.length⟩)
    st

/-- Environment of one transfer attempt: the declared size read from the
file-info characteristic after REQUEST_NEXT, the monotonic reading stored in
`transfer_start` (sync.py line 236), the chunks delivered between
`start_notify` and the first loop-head check, and the wait-loop events. -/
structure AttemptEnv where
  declaredSize : Nat
  transferStart : ℚ
  preChunks : List (List Nat)
  events : List WaitStep
deriving DecidableEq

def defaultAttemptEnv : AttemptEnv := ⟨0, 0, [], []⟩

/-- How one attempt ended: `emptyFile` is the `break` on `expected_size == 0`
(line 253), `success` the `break` after the line-298 completeness check,
`failed` a fall-through to the next attempt. -/
inductive AttemptOutcome where
  | emptyFile : AttemptOutcome
  | success : AttemptOutcome
  | failed : AttemptOutcome
deriving DecidableEq

/-- Result of one attempt: the declared size it read, `audio_data` when the
line-298 check passed (`none` otherwise), the outcome, and the streaming
trace (`none` when the wait loop was never entered). -/
structure AttemptResult where
  expected_size : Nat
  audio_data : Option (List Nat)
  outcome : AttemptOutcome
  stream : Option StreamResult
deriving DecidableEq

/-- Embeds one iteration of the attempt loop of `sync_recordings` (sync.py
lines 205-302): reset the accumulators, subscribe, request, read the
declared size; `break` immediately on size 0; otherwise run the streaming
loop and, when `received_total_bytes >= expected_size` (the size is positive
here), store `b"".join(received_chunks)[:expected_size]` as `audio_data` and
`break`.  BLE write/read faults on the request path, which the source does
not catch, are outside this model (the environment always supplies a size
read), and `stop_notify` in the `finally` block detaches the subscription
before the attempt returns.  `attemptStream` is the streaming loop run from
the freshly reset accumulators after the pre-loop deliveries; `runAttempt`
wraps it in the size-read branching. -/
def attemptStream (env : AttemptEnv) : StreamResult :=
  streamLoop env.declaredSize env.transferStart env.events
    (deliverChunks attemptInit env.preChunks).received_chunks
    (deliverChunks attemptInit env.preChunks).received_total_bytes
    (deliverChunks attemptInit env.preChunks).chunk_count

/-- See `attemptStream`: the `expected_size == 0` break, the streaming loop,
and the line-298 completeness check of one attempt. -/
def runAttempt (env : AttemptEnv) : AttemptResult :=
  if env.declaredSize = 0 then
    ⟨0, none, .emptyFile, none⟩
  else if env.declaredSize ≤ (attemptStream env).receivedTotalBytes then
    ⟨env.declaredSize,
      some (((attemptStream env).received.flatten).take env.declaredSize),
      .success, some (attemptStream env)⟩
  else
    ⟨env.declaredSize, none, .failed, some (attemptStream env)⟩

-- ## Per-file attempt loop and post-processing (sync.py lines 197-360)

/-- The `for attempt in range(1, MAX_FILE_TRANSFER_ATTEMPTS + 1)` loop run
from one attempt environment with the environments of the later attempts
still pending: a `break` (empty file or success) stops; a failed attempt
falls through to the next environment, and after the last one the final
attempt's result is what the loop leaves behind (its `expected_size` is the
last value read, `audio_data` was never assigned).  Returns the number of
attempts executed, the result the loop ends on, and each executed attempt's
streaming trace in order. -/
def runAttemptsFrom : AttemptEnv → List AttemptEnv → Nat × AttemptResult × List (Option StreamResult)
  | env, rest =>
    if (runAttempt env).outcome = .failed then
      match rest with
      | [] => (1, runAttempt env, [(runAttempt env).stream])
      | e2 :: rest2 =>
        ((runAttemptsFrom e2 rest2).1 + 1, (runAttemptsFrom e2 rest2).2.1,
          (runAttempt env).stream :: (runAttemptsFrom e2 rest2).2.2)
    else (1, runAttempt env, [(runAttempt env).stream])

/-- Environment of one recording index: the environment each of the up-to-3
attempts would see, and whether the ACK_RECEIVED write succeeds. -/
structure FileEnv where
  attempts : List AttemptEnv
  ackOk : Bool
deriving DecidableEq

def defaultFileEnv : FileEnv := ⟨[], true⟩

/-- The attempt environments a file's loop draws on, one per
`range(1, MAX_FILE_TRANSFER_ATTEMPTS + 1)` iteration. -/
def fileAttemptEnvs (f : FileEnv) : List AttemptEnv :=
  (List.range MAX_FILE_TRANSFER_ATTEMPTS).map
    (fun k => f.attempts.getD k defaultAttemptEnv)

/-- Run the attempt loop for one file.  `MAX_FILE_TRANSFER_ATTEMPTS` is
positive, so the catch-all branch for an empty environment list is
unreachable. -/
def runFileAttempts (f : FileEnv) : Nat × AttemptResult × List (Option StreamResult) :=
  match fileAttemptEnvs f with
  | [] => (0, runAttempt defaultAttemptEnv, [])
  | e :: rest => runAttemptsFrom e rest

/-- How one recording index's processing ended, mirroring the code paths
after the attempt loop (sync.py lines 304-346): empty file acknowledged and
loop continued; full file acknowledged and loop continued; ACK write failed
after saving, early `return`; `RuntimeError` on exhausted attempts;
`struct.error` from the sample-count header unpack; and an uncaught fault
of the empty file's unguarded ACK write. -/
inductive FileOutcome where
  | ackedEmpty : FileOutcome
  | ackedFull : FileOutcome
  | ackFailed : FileOutcome
  | transferFailed : FileOutcome
  | headerError : FileOutcome
  | emptyAckFailed : FileOutcome
deriving DecidableEq

/-- Result of processing one recording index: attempts executed, the final
`expected_size` and `audio_data` values, the artifact (the PCM16 handed to
the lame encoder, standing in for the saved MP3; `none` when nothing was
saved), the outcome, and each executed attempt's streaming trace. -/
structure FileResult where
  attemptsUsed : Nat
  expected_size : Nat
  audio_data : List Nat
  artifact : Option (List Nat)
  outcome : FileOutcome
  streams : List (Option StreamResult)
deriving DecidableEq

/-- Embeds one `for i in range(file_count)` iteration of `sync_recordings`
(sync.py lines 197-346): run the attempt loop; on `expected_size == 0` send
the unguarded ACK (lines 305-310); otherwise raise `RuntimeError` when
`len(audio_data) != expected_size` (line 312), else decode and save the
artifact (lines 325-335) and then attempt the guarded ACK (lines 337-346).
Transcription (lines 348-360) only logs and toggles `skip_transcription`,
so it is not modelled. -/
def runFile (f : FileEnv) : FileResult :=
  if (runFileAttempts f).2.1.expected_size = 0 then
    if f.ackOk then
      ⟨(runFileAttempts f).1, 0, [], none, .ackedEmpty, (runFileAttempts f).2.2⟩
    else
      ⟨(runFileAttempts f).1, 0, [], none, .emptyAckFailed,
        (runFileAttempts f).2.2⟩
  else if ((runFileAttempts f).2.1.audio_data.getD []).length ≠
      (runFileAttempts f).2.1.expected_size then
    ⟨(runFileAttempts f).1, (runFileAttempts f).2.1.expected_size,
      (runFileAttempts f).2.1.audio_data.getD [], none, .transferFailed,
      (runFileAttempts f).2.2⟩
  else
    match encode_mp3_from_ima_pcm ((runFileAttempts f).2.1.audio_data.getD []) with
    | none =>
      ⟨(runFileAttempts f).1, (runFileAttempts f).2.1.expected_size,
        (runFileAttempts f).2.1.audio_data.getD [], none, .headerError,
        (runFileAttempts f).2.2⟩
    | some pcm =>
      if f.ackOk then
        ⟨(runFileAttempts f).1, (runFileAttempts f).2.1.expected_size,
          (runFileAttempts f).2.1.audio_data.getD [], some pcm, .ackedFull,
          (runFileAttempts f).2.2⟩
      else
        ⟨(runFileAttempts f).1, (runFileAttempts f).2.1.expected_size,
          (runFileAttempts f).2.1.audio_data.getD [], some pcm, .ackFailed,
          (runFileAttempts f).2.2⟩

-- ## Session level (sync.py lines 171-369)

/-- Environment of one `sync_recordings` call: the file count read from the
device, the per-index file environments, and whether the SYNC_DONE write
would succeed. -/
structure SessionEnv where
  fileCount : Nat
  files : List FileEnv
  syncDoneOk : Bool
deriving DecidableEq

/-- Observable result of one `sync_recordings` call: the returned
`(synced, saved_recordings)` pair with artifacts identified by recording
index (`none` when an exception propagated out), whether the SYNC_DONE
write was attempted, and the results of the indices actually processed. -/
structure SessionResult where
  retval : Option (Nat × List Nat)
  syncDoneAttempted : Bool
  fileResults : List FileResult
deriving DecidableEq

/-- Embeds the index loop of `sync_recordings` plus its epilogue: each acked
file bumps `synced` and the loop continues; a failed ACK returns
`(synced, saved_recordings)` at once (line 345), skipping the SYNC_DONE
write; a raised error propagates, also skipping it; only falling off the
loop reaches the SYNC_DONE write (line 362). -/
def runFilesLoop : List (Nat × FileEnv) → Nat → List Nat → SessionResult
  | [], synced, saved => ⟨some (synced, saved), true, []⟩
  | (i, f) :: rest, synced, saved =>
    match (runFile f).outcome with
    | .ackedEmpty =>
      ⟨(runFilesLoop rest (synced + 1) saved).retval,
        (runFilesLoop rest (synced + 1) saved).syncDoneAttempted,
        runFile f :: (runFilesLoop rest (synced + 1) saved).fileResults⟩
    | .ackedFull =>
      ⟨(runFilesLoop rest (synced + 1) (saved ++ [i])).retval,
        (runFilesLoop rest (synced + 1) (saved ++ [i])).syncDoneAttempted,
        runFile f :: (runFilesLoop rest (synced + 1) (saved ++ [i])).fileResults⟩
    | .ackFailed => ⟨some (synced, saved ++ [i]), false, [runFile f]⟩
    | _ => ⟨none, false, [runFile f]⟩

/-- Embeds `sync_recordings` (sync.py lines 171-369): a zero file count
returns `(0, [])` at line 189 before the loop and before the SYNC_DONE
write; otherwise the index loop runs over `range(file_count)`.  The battery
read only logs, so it is not modelled; the outcome of the SYNC_DONE write
itself (`syncDoneOk`) is only logged by the source, which is why no result
field depends on it. -/
def runSession (env : SessionEnv) : SessionResult :=
  if env.fileCount = 0 then ⟨some (0, []), false, []⟩
  else
    runFilesLoop
      ((List.range env.fileCount).map
        (fun i => (i, env.files.getD i defaultFileEnv)))
      0 []

-- ## Lemmas about the ADPCM decoder

theorem nibbleStream_cons (b : Nat) (l : List Nat) :
    nibbleStream (b :: l) =
      (b &&& 0x0F) :: ((b >>> 4) &&& 0x0F) :: nibbleStream l := by
  simp [nibbleStream]

theorem nibbleStream_length (data : List Nat) :
    (nibbleStream data).length = 2 * data.length := by
  induction data with
  | nil => rfl
  | cons b l ih => rw [nibbleStream_cons]; simp only [List.length_cons, ih]; omega

theorem nibbleStream_getElem (data : List Nat) :
    ∀ (i : Nat) (h : i < (nibbleStream data).length),
      (nibbleStream data)[i] =
        if i % 2 = 0 then data.getD (i / 2) 0 &&& 0x0F
        else (data.getD (i / 2) 0 >>> 4) &&& 0x0F := by
  induction data with
  | nil => intro i h; simp [nibbleStream] at h
  | cons b l ih =>
    intro i h
    match i with
    | 0 => simp [nibbleStream_cons]
    | 1 => simp [nibbleStream_cons]
    | k + 2 =>
      have h2 : k < (nibbleStream l).length := by
        rw [nibbleStream_cons] at h; simpa using h
      have e0 : (nibbleStream (b :: l))[k + 2] = (nibbleStream l)[k] := by
        simp [nibbleStream_cons]
      rw [e0, ih k h2]
      have e1 : (k + 2) % 2 = k % 2 := by omega
      have e2 : (k + 2) / 2 = k / 2 + 1 := by omega
      rw [e1, e2]
      simp

set_option maxHeartbeats 1000000 in
theorem specStep_eq_adpcmDecodeNibble (st : AdpcmState) (nibble : Nat) :
    specStep st nibble = adpcmDecodeNibble st nibble := by
  simp only [specStep, adpcmDecodeNibble, specDelta, AdpcmState.mk.injEq]
  generalize ADPCM_STEP_TABLE.getD st.step_index 0 = step
  generalize ADPCM_INDEX_TABLE.getD nibble 0 = ix
  constructor
  · split_ifs <;> push_cast <;> omega
  · omega

theorem emit_mask_low (u : Nat) : u &&& 0xFF = u % 256 := by
  have h := Nat.and_pow_two_sub_one_eq_mod u 8
  norm_num at h
  exact h

theorem emit_mask_high (u : Nat) (hu : u < 65536) :
    (u >>> 8) &&& 0xFF = u / 256 := by
  have h := Nat.and_pow_two_sub_one_eq_mod (u >>> 8) 8
  rw [Nat.shiftRight_eq_div_pow] at h
  norm_num at h
  rw [Nat.shiftRight_eq_div_pow]
  norm_num
  omega

theorem emitLE16_eq_bytes (p : Int) :
    emitLE16 p = ((p % 65536).toNat &&& 0xFF) ::
      (((p % 65536).toNat >>> 8) &&& 0xFF) :: [] := by
  have hu : (p % 65536).toNat < 65536 := by omega
  rw [emitLE16, emit_mask_low, emit_mask_high _ hu]

theorem decodeFrom_eq_decodeNibbles (data : List Nat) :
    ∀ (remaining i : Nat) (st : AdpcmState),
      decodeFrom data remaining i st =
        decodeNibbles st (((nibbleStream data).drop i).take remaining) := by
  intro remaining
  induction remaining with
  | zero => intro i st; simp [decodeFrom, decodeNibbles]
  | succ m ih =>
    intro i st
    by_cases hb : i / 2 < data.length
    · have hlen : i < (nibbleStream data).length := by
        rw [nibbleStream_length]; omega
      rw [List.drop_eq_getElem_cons hlen, List.take_succ_cons]
      rw [nibbleStream_getElem data i hlen]
      rw [decodeFrom]
      simp only [hb, if_true, ite_true]
      rw [decodeNibbles, specStep_eq_adpcmDecodeNibble, emitLE16_eq_bytes]
      rw [ih (i + 1) (adpcmDecodeNibble st _)]
      simp
    · have hge : (nibbleStream data).length ≤ i := by
        rw [nibbleStream_length]; omega
      rw [List.drop_eq_nil_of_le hge]
      rw [decodeFrom]
      simp [hb, decodeNibbles]

theorem decodeNibbles_length (l : List Nat) :
    ∀ st : AdpcmState, (decodeNibbles st l).length = 2 * l.length := by
  induction l with
  | nil => intro st; rfl
  | cons n rest ih =>
    intro st
    rw [decodeNibbles]
    simp only [List.length_append, List.length_cons, ih]
    simp [emitLE16]
    omega

theorem nibbleStream_take (data : List Nat) :
    ∀ k : Nat, nibbleStream (data.take k) = (nibbleStream data).take (2 * k) := by
  induction data with
  | nil => intro k; simp [nibbleStream]
  | cons b l ih =>
    intro k
    match k with
    | 0 => simp [nibbleStream]
    | k + 1 =>
      have e : 2 * (k + 1) = 2 * k + 1 + 1 := by ring
      rw [List.take_succ_cons, nibbleStream_cons, nibbleStream_cons, e,
        List.take_succ_cons, List.take_succ_cons, ih]

theorem decode_ima_adpcm_eq_specModel (data : List Nat) (sample_count : Nat) :
    decode_ima_adpcm data sample_count =
      decode_ima_adpcm_specModel data sample_count := by
  unfold decode_ima_adpcm decode_ima_adpcm_specModel
  simpa using decodeFrom_eq_decodeNibbles data sample_count 0 ⟨0, 0⟩

/-- Claim C1: from predictor 0 and step index 0, `decode_ima_adpcm` processes
nibbles low-nibble-first exactly as the per-nibble step of the spec (delta
accumulation from the 89-entry step table, sign from bit 3, predictor clamp
to `[-32768, 32767]`, little-endian 16-bit emission, step-index adjustment
from the 16-entry table clamped to `[0, 88]`); it emits exactly
`min sample_count (2 * data.length)` samples, hence twice as many output
bytes, never fabricating data on underrun; and trailing input bytes beyond
what `sample_count` consumes never influence the output. -/
theorem C1_decode_ima_adpcm_correct (data : List Nat) (sample_count : Nat) :
    decode_ima_adpcm data sample_count =
        decode_ima_adpcm_specModel data sample_count ∧
      (decode_ima_adpcm data sample_count).length =
        2 * min sample_count (2 * data.length) ∧
      decode_ima_adpcm data sample_count =
        decode_ima_adpcm (data.take ((sample_count + 1) / 2)) sample_count := by
  refine ⟨decode_ima_adpcm_eq_specModel data sample_count, ?_, ?_⟩
  · rw [decode_ima_adpcm_eq_specModel]
    unfold decode_ima_adpcm_specModel
    rw [decodeNibbles_length, List.length_take, nibbleStream_length]
  · rw [decode_ima_adpcm_eq_specModel, decode_ima_adpcm_eq_specModel]
    unfold decode_ima_adpcm_specModel
    rw [nibbleStream_take, List.take_take]
    have e : min sample_count (2 * ((sample_count + 1) / 2)) = sample_count := by
      omega
    rw [e]

-- ## Lemmas about the streaming loop and chunk accounting

theorem deliverChunks_spec (chunks : List (List Nat)) :
    ∀ st : AttemptState,
      deliverChunks st chunks =
        ⟨st.received_chunks ++ chunks, st.chunk_count + chunks.length,
          st.received_total_bytes + chunks.flatten.length⟩ := by
  induction chunks with
  | nil => intro st; simp [deliverChunks]
  | cons c rest ih =>
    intro st
    simp only [deliverChunks, List.foldl_cons] at ih ⊢
    rw [ih]
    simp only [AttemptState.mk.injEq, List.flatten_cons, List.length_cons]
    refine ⟨by simp, by omega, by simp [List.length_append]; omega⟩

theorem streamLoop_flatten_length (es : Nat) (ts : ℚ) :
    ∀ (events : List WaitStep) (received : List (List Nat)) (total count : Nat),
      total = received.flatten.length →
      (streamLoop es ts events received total count).receivedTotalBytes =
        (streamLoop es ts events received total count).received.flatten.length := by
  intro events
  induction events with
  | nil =>
    intro received total count h
    rw [streamLoop]
    split
    · simpa using h
    · simpa using h
  | cons e rest ih =>
    intro received total count h
    rw [streamLoop]
    split
    · simpa using h
    · split
      · simpa using h
      · split
        · simpa using h
        · simp only [consTrace]
          exact ih _ _ _ (by simp [h])

/-- Claim C7: during streaming, every per-chunk wait uses a timeout equal to
`min(stall_deadline_remaining, total_deadline_remaining)`, where the stall
budget is the fixed 2.0-second constant restarting at every wait and the
total budget is 120 seconds of wall clock measured from the attempt's
`transfer_start`; a wait only happens while the total deadline has time
remaining; the loop exits successfully exactly when the bytes accumulated
at a loop-head check reach the declared size (in particular immediately,
with no wait, when they already do); and a total-deadline expiry ends the
trace at once, with no further wait after it. -/
theorem C7_stream_wait_timeout_spec (expected_size : Nat) (transfer_start : ℚ)
    (events : List WaitStep) (received : List (List Nat)) (total count : Nat) :
    (expected_size ≤ total →
      streamLoop expected_size transfer_start events received total count =
        ⟨.success, received, total, count, [⟨total, .exitSuccess⟩]⟩) ∧
    ∀ step ∈ (streamLoop expected_size transfer_start events received total count).trace,
      (∀ el tmo arr, step.action = .waited el tmo arr →
        tmo = min TRANSFER_STALL_TIMEOUT_SECONDS
            (TRANSFER_TOTAL_TIMEOUT_SECONDS - el) ∧
          0 < TRANSFER_TOTAL_TIMEOUT_SECONDS - el) ∧
      (step.action = .exitSuccess ↔ expected_size ≤ step.totalAtCheck) ∧
      (∀ el, step.action = .raiseTotal el →
        TRANSFER_TOTAL_TIMEOUT_SECONDS - el ≤ 0 ∧
        (streamLoop expected_size transfer_start events received total
            count).trace.getLast? = some step) := by
  induction events generalizing received total count with
  | nil =>
    refine ⟨fun hle => by rw [streamLoop]; simp [hle], ?_⟩
    intro step hmem
    rw [streamLoop] at hmem
    split at hmem
    case isTrue hle =>
      simp only [List.mem_singleton] at hmem
      subst hmem
      exact ⟨fun el tmo arr hw => by simp at hw,
        ⟨fun _ => hle, fun _ => rfl⟩, fun el hr => by simp at hr⟩
    case isFalse hle => simp at hmem
  | cons e rest ih =>
    refine ⟨fun hle => by rw [streamLoop]; simp [hle], ?_⟩
    intro step hmem
    rw [streamLoop] at hmem
    split at hmem
    case isTrue hle =>
      simp only [List.mem_singleton] at hmem
      subst hmem
      exact ⟨fun el tmo arr hw => by simp at hw,
        ⟨fun _ => hle, fun _ => rfl⟩, fun el hr => by simp at hr⟩
    case isFalse hle =>
      split at hmem
      case isTrue hrem =>
        simp only [List.mem_singleton] at hmem
        subst hmem
        refine ⟨fun el tmo arr hw => by simp at hw,
          ⟨fun hx => by simp at hx, fun hx => absurd hx hle⟩,
          fun el hr => ?_⟩
        simp only [StreamAction.raiseTotal.injEq] at hr
        subst hr
        refine ⟨hrem, ?_⟩
        rw [streamLoop]
        simp [hle, hrem]
      case isFalse hrem =>
        split at hmem
        case h_1 harr =>
          simp only [List.mem_singleton] at hmem
          subst hmem
          refine ⟨fun el tmo arr hw => ?_,
            ⟨fun hx => by simp at hx, fun hx => absurd hx hle⟩,
            fun el hr => by simp at hr⟩
          simp only [StreamAction.waited.injEq] at hw
          obtain ⟨h1, h2, h3⟩ := hw
          subst h1
          subst h2
          exact ⟨rfl, not_le.mp hrem⟩
        case h_2 chunk harr =>
          simp only [consTrace, List.mem_cons] at hmem
          rcases hmem with hhead | htail
          · subst hhead
            refine ⟨fun el tmo arr hw => ?_,
              ⟨fun hx => by simp at hx, fun hx => absurd hx hle⟩,
              fun el hr => by simp at hr⟩
            simp only [StreamAction.waited.injEq] at hw
            obtain ⟨h1, h2, h3⟩ := hw
            subst h1
            subst h2
            exact ⟨rfl, not_le.mp hrem⟩
          · have hrec := (ih (received ++ [chunk]) (total + chunk.length)
              (count + 1)).2 step htail
            refine ⟨hrec.1, hrec.2.1, fun el hr => ⟨(hrec.2.2 el hr).1, ?_⟩⟩
            have hne : (streamLoop expected_size transfer_start rest
                (received ++ [chunk]) (total + chunk.length)
                (count + 1)).trace ≠ [] := List.ne_nil_of_mem htail
            obtain ⟨b, l2, hbl⟩ := List.exists_cons_of_ne_nil hne
            rw [streamLoop]
            simp only [hle, if_false, ite_false, hrem, harr, consTrace]
            rw [hbl, List.getLast?_cons_cons, ← hbl]
            exact (hrec.2.2 el hr).2

/-- Witness for C7: in a run whose first wait happens 1 second into the
attempt, that wait's recorded timeout is the stall constant, the minimum of
the two remaining budgets. -/
theorem C7_stream_wait_timeout_spec_witness :
    (2 : ℚ) = min TRANSFER_STALL_TIMEOUT_SECONDS
        (TRANSFER_TOTAL_TIMEOUT_SECONDS - 1) ∧
      (0 : ℚ) < TRANSFER_TOTAL_TIMEOUT_SECONDS - 1 := by
  have hev : streamLoop 2 0 [⟨1, some [9, 9]⟩] [] 0 0 =
      ⟨.success, [[9, 9]], 2, 1,
        [⟨0, .waited 1 2 (some [9, 9])⟩, ⟨2, .exitSuccess⟩]⟩ := by
    rw [streamLoop]
    norm_num [TRANSFER_TOTAL_TIMEOUT_SECONDS, TRANSFER_STALL_TIMEOUT_SECONDS,
      consTrace]
    rw [streamLoop]
    norm_num
  have h := (C7_stream_wait_timeout_spec 2 0 [⟨1, some [9, 9]⟩] [] 0 0).2
    ⟨0, .waited 1 2 (some [9, 9])⟩
    (by rw [hev]; exact List.mem_cons_self _ _)
  exact h.1 1 2 (some [9, 9]) rfl

/-- Claim C5: whenever an attempt succeeds, the stored `audio_data` payload
is exactly the first `declared_size` bytes of the concatenation of the
received chunks — the accumulated bytes are at least the declared size, the
payload has exactly the declared length, and any overrun tail is cut off by
the truncation. -/
theorem C5_payload_is_declared_size_prefix (env : AttemptEnv)
    (hs : (runAttempt env).outcome = .success) :
    ∃ sr : StreamResult,
      (runAttempt env).stream = some sr ∧
      (runAttempt env).audio_data =
        some (sr.received.flatten.take env.declaredSize) ∧
      env.declaredSize ≤ sr.received.flatten.length ∧
      (sr.received.flatten.take env.declaredSize).length = env.declaredSize := by
  by_cases h0 : env.declaredSize = 0
  · rw [runAttempt] at hs
    simp [h0] at hs
  · have hinv : (attemptStream env).receivedTotalBytes =
        (attemptStream env).received.flatten.length := by
      rw [attemptStream]
      exact streamLoop_flatten_length _ _ _ _ _ _
        (by rw [deliverChunks_spec]; simp [attemptInit])
    by_cases hle : env.declaredSize ≤ (attemptStream env).receivedTotalBytes
    · rw [runAttempt]
      simp only [h0, if_false, ite_false, hle, if_true, ite_true]
      refine ⟨attemptStream env, rfl, rfl, by omega, ?_⟩
      rw [List.length_take]
      omega
    · rw [runAttempt] at hs
      simp [h0, hle] at hs

/-- Witness for C5: two chunks of two bytes against a declared size of 3 give
a 3-byte payload, the overrun tail dropped. -/
theorem C5_payload_is_declared_size_prefix_witness :
    ∃ sr : StreamResult,
      (runAttempt ⟨3, 0, [[1, 2], [3, 4]], []⟩).stream = some sr ∧
      (runAttempt ⟨3, 0, [[1, 2], [3, 4]], []⟩).audio_data =
        some (sr.received.flatten.take 3) ∧
      3 ≤ sr.received.flatten.length ∧
      (sr.received.flatten.take 3).length = 3 :=
  C5_payload_is_declared_size_prefix ⟨3, 0, [[1, 2], [3, 4]], []⟩ (by decide)

-- ## Lemmas about attempts and the attempt loop

theorem runAttempt_failed_audio (env : AttemptEnv)
    (h : (runAttempt env).outcome = .failed) :
    (runAttempt env).audio_data = none := by
  rw [runAttempt] at h ⊢
  split at h
  case isTrue => simp at h
  case isFalse h0 =>
    split at h
    case isTrue hle => simp at h
    case isFalse hle => simp [h0, hle]

theorem runAttempt_success_audio (env : AttemptEnv)
    (hs : (runAttempt env).outcome = .success) :
    ∃ payload : List Nat,
      (runAttempt env).audio_data = some payload ∧
      payload.length = (runAttempt env).expected_size := by
  rw [runAttempt] at hs ⊢
  split at hs
  case isTrue => simp at hs
  case isFalse h0 =>
    split at hs
    case isTrue hle =>
      simp only [h0, ite_false, hle, ite_true]
      refine ⟨_, rfl, ?_⟩
      have hinv : (attemptStream env).receivedTotalBytes =
          (attemptStream env).received.flatten.length := by
        rw [attemptStream]
        exact streamLoop_flatten_length _ _ _ _ _ _
          (by rw [deliverChunks_spec]; simp [attemptInit])
      rw [List.length_take]
      omega
    case isFalse hle => simp at hs

theorem runAttemptsFrom_final :
    ∀ (rest : List AttemptEnv) (env : AttemptEnv),
      ∃ e, (runAttemptsFrom env rest).2.1 = runAttempt e := by
  intro rest
  induction rest with
  | nil =>
    intro env
    rw [runAttemptsFrom]
    split
    · exact ⟨env, rfl⟩
    · exact ⟨env, rfl⟩
  | cons e2 rest2 ih =>
    intro env
    rw [runAttemptsFrom]
    split
    · exact ih e2
    · exact ⟨env, rfl⟩

theorem runAttemptsFrom_failed_count :
    ∀ (rest : List AttemptEnv) (env : AttemptEnv),
      (runAttemptsFrom env rest).2.1.outcome = .failed →
      (runAttemptsFrom env rest).1 = rest.length + 1 := by
  intro rest
  induction rest with
  | nil =>
    intro env h
    rw [runAttemptsFrom]
    split <;> rfl
  | cons e2 rest2 ih =>
    intro env h
    rw [runAttemptsFrom] at h ⊢
    split at h
    case isTrue hf =>
      rw [if_pos hf]
      show (runAttemptsFrom e2 rest2).1 + 1 = (e2 :: rest2).length + 1
      rw [ih e2 h]
      rfl
    case isFalse hf => exact absurd h hf

theorem runAttemptsFrom_count_le :
    ∀ (rest : List AttemptEnv) (env : AttemptEnv),
      (runAttemptsFrom env rest).1 ≤ rest.length + 1 := by
  intro rest
  induction rest with
  | nil =>
    intro env
    rw [runAttemptsFrom]
    split <;> simp
  | cons e2 rest2 ih =>
    intro env
    rw [runAttemptsFrom]
    split
    · have := ih e2
      show (runAttemptsFrom e2 rest2).1 + 1 ≤ (e2 :: rest2).length + 1
      simp only [List.length_cons]
      omega
    · show 1 ≤ (e2 :: rest2).length + 1
      omega

theorem runAttemptsFrom_streams_getD :
    ∀ (rest : List AttemptEnv) (env : AttemptEnv) (k : Nat),
      k < (runAttemptsFrom env rest).1 →
      (runAttemptsFrom env rest).2.2.getD k none =
        (runAttempt ((env :: rest).getD k defaultAttemptEnv)).stream := by
  intro rest
  induction rest with
  | nil =>
    intro env k hk
    rw [runAttemptsFrom] at hk ⊢
    split at hk
    case isTrue hc =>
      rw [if_pos hc]
      have hk0 : k = 0 := by
        simp only at hk
        omega
      subst hk0
      rfl
    case isFalse hc =>
      rw [if_neg hc]
      have hk0 : k = 0 := by
        simp only at hk
        omega
      subst hk0
      rfl
  | cons e2 rest2 ih =>
    intro env k hk
    rw [runAttemptsFrom] at hk ⊢
    split at hk
    case isTrue hc =>
      rw [if_pos hc]
      match k with
      | 0 => rfl
      | k + 1 =>
        have hk2 : k < (runAttemptsFrom e2 rest2).1 := by
          simp only at hk
          omega
        show (runAttemptsFrom e2 rest2).2.2.getD k none =
          (runAttempt ((e2 :: rest2).getD k defaultAttemptEnv)).stream
        exact ih e2 k hk2
    case isFalse hc =>
      rw [if_neg hc]
      have hk0 : k = 0 := by
        simp only at hk
        omega
      subst hk0
      rfl

theorem fileAttemptEnvs_eq (f : FileEnv) :
    fileAttemptEnvs f =
      [f.attempts.getD 0 defaultAttemptEnv, f.attempts.getD 1 defaultAttemptEnv,
        f.attempts.getD 2 defaultAttemptEnv] := rfl

theorem runFileAttempts_eq (f : FileEnv) :
    runFileAttempts f =
      runAttemptsFrom (f.attempts.getD 0 defaultAttemptEnv)
        [f.attempts.getD 1 defaultAttemptEnv,
          f.attempts.getD 2 defaultAttemptEnv] := by
  rw [runFileAttempts, fileAttemptEnvs_eq]

theorem runFileAttempts_count_le (f : FileEnv) :
    (runFileAttempts f).1 ≤ MAX_FILE_TRANSFER_ATTEMPTS := by
  rw [runFileAttempts_eq]
  exact runAttemptsFrom_count_le _ _

theorem runFileAttempts_final (f : FileEnv) :
    ∃ e, (runFileAttempts f).2.1 = runAttempt e := by
  rw [runFileAttempts_eq]
  exact runAttemptsFrom_final _ _

theorem attempt_envs3_getD (f : FileEnv) (k : Nat) (hk : k < 3) :
    ([f.attempts.getD 0 defaultAttemptEnv, f.attempts.getD 1 defaultAttemptEnv,
      f.attempts.getD 2 defaultAttemptEnv]).getD k defaultAttemptEnv =
      f.attempts.getD k defaultAttemptEnv := by
  interval_cases k <;> rfl

/-- Claim C6: every executed attempt starts from the freshly reset
accumulators — empty chunk buffer, zero chunk count, zero accumulated
bytes — and its streaming record is a function of that attempt's own
environment alone: two files whose environments agree on attempt `k`
produce identical attempt-`k` streaming records no matter what partial data
the other attempts delivered, so no chunk delivered to one attempt's
subscription lands in another attempt's buffer. -/
theorem C6_attempts_start_fresh_and_isolated (f g : FileEnv) (k : Nat)
    (hkf : k < (runFileAttempts f).1) (hkg : k < (runFileAttempts g).1)
    (henv : f.attempts.getD k defaultAttemptEnv =
      g.attempts.getD k defaultAttemptEnv) :
    (runFileAttempts f).2.2.getD k none =
        (runAttempt (f.attempts.getD k defaultAttemptEnv)).stream ∧
      (runFileAttempts f).2.2.getD k none =
        (runFileAttempts g).2.2.getD k none ∧
      attemptInit.received_chunks = [] ∧
      attemptInit.chunk_count = 0 ∧
      attemptInit.received_total_bytes = 0 := by
  have hk3f : k < 3 := lt_of_lt_of_le hkf (runFileAttempts_count_le f)
  have hk3g : k < 3 := lt_of_lt_of_le hkg (runFileAttempts_count_le g)
  have hf := runAttemptsFrom_streams_getD
    [f.attempts.getD 1 defaultAttemptEnv, f.attempts.getD 2 defaultAttemptEnv]
    (f.attempts.getD 0 defaultAttemptEnv) k
    (by rw [runFileAttempts_eq] at hkf; exact hkf)
  have hg := runAttemptsFrom_streams_getD
    [g.attempts.getD 1 defaultAttemptEnv, g.attempts.getD 2 defaultAttemptEnv]
    (g.attempts.getD 0 defaultAttemptEnv) k
    (by rw [runFileAttempts_eq] at hkg; exact hkg)
  have h1 : (runFileAttempts f).2.2.getD k none =
      (runAttempt (f.attempts.getD k defaultAttemptEnv)).stream := by
    rw [runFileAttempts_eq, hf, attempt_envs3_getD f k hk3f]
  have h2 : (runFileAttempts g).2.2.getD k none =
      (runAttempt (g.attempts.getD k defaultAttemptEnv)).stream := by
    rw [runFileAttempts_eq, hg, attempt_envs3_getD g k hk3g]
  exact ⟨h1, by rw [h1, h2, henv], rfl, rfl, rfl⟩

/-- Witness for C6: the one-attempt empty-file environment executes its
attempt 0, whose streaming record matches its own environment's. -/
theorem C6_attempts_start_fresh_and_isolated_witness :
    (runFileAttempts ⟨[⟨0, 0, [], []⟩], true⟩).2.2.getD 0 none =
        (runAttempt ((⟨[⟨0, 0, [], []⟩], true⟩ : FileEnv).attempts.getD 0
          defaultAttemptEnv)).stream ∧
      (runFileAttempts ⟨[⟨0, 0, [], []⟩], true⟩).2.2.getD 0 none =
        (runFileAttempts ⟨[⟨0, 0, [], []⟩], true⟩).2.2.getD 0 none ∧
      attemptInit.received_chunks = [] ∧
      attemptInit.chunk_count = 0 ∧
      attemptInit.received_total_bytes = 0 :=
  C6_attempts_start_fresh_and_isolated ⟨[⟨0, 0, [], []⟩], true⟩
    ⟨[⟨0, 0, [], []⟩], true⟩ 0 (by decide) (by decide) rfl

/-- Claim C8: a recording whose declared size reads 0 never enters the
streaming wait loop (its attempt record holds no streaming trace), is
acknowledged immediately, consumes exactly one attempt, produces no
artifact, bumps the synced count by one, and the index loop moves on to the
next recording. -/
theorem C8_empty_file_short_circuit (f : FileEnv)
    (h0 : (f.attempts.getD 0 defaultAttemptEnv).declaredSize = 0)
    (hack : f.ackOk = true) :
    runFile f = ⟨1, 0, [], none, .ackedEmpty, [none]⟩ ∧
    ∀ (rest : List (Nat × FileEnv)) (i synced : Nat) (saved : List Nat),
      runFilesLoop ((i, f) :: rest) synced saved =
        ⟨(runFilesLoop rest (synced + 1) saved).retval,
          (runFilesLoop rest (synced + 1) saved).syncDoneAttempted,
          runFile f :: (runFilesLoop rest (synced + 1) saved).fileResults⟩ := by
  have hra : runAttempt (f.attempts.getD 0 defaultAttemptEnv) =
      ⟨0, none, .emptyFile, none⟩ := by
    rw [runAttempt, if_pos h0]
  have hatt : runFileAttempts f = (1, ⟨0, none, .emptyFile, none⟩, [none]) := by
    rw [runFileAttempts_eq, runAttemptsFrom, hra]
    simp
  have hrf : runFile f = ⟨1, 0, [], none, .ackedEmpty, [none]⟩ := by
    rw [runFile, hatt]
    simp [hack]
  refine ⟨hrf, fun rest i synced saved => ?_⟩
  rw [runFilesLoop, hrf]

/-- Witness for C8: a file environment whose only attempt reads size 0. -/
theorem C8_empty_file_short_circuit_witness :
    runFile ⟨[⟨0, 0, [], []⟩], true⟩ = ⟨1, 0, [], none, .ackedEmpty, [none]⟩ ∧
    runFilesLoop [(0, ⟨[⟨0, 0, [], []⟩], true⟩)] 0 [] =
      ⟨(runFilesLoop [] 1 []).retval, (runFilesLoop [] 1 []).syncDoneAttempted,
        runFile ⟨[⟨0, 0, [], []⟩], true⟩ :: (runFilesLoop [] 1 []).fileResults⟩ :=
  ⟨(C8_empty_file_short_circuit ⟨[⟨0, 0, [], []⟩], true⟩ rfl rfl).1,
    (C8_empty_file_short_circuit ⟨[⟨0, 0, [], []⟩], true⟩ rfl rfl).2 [] 0 0 []⟩

-- ## Lemmas about the session index loop

theorem runFilesLoop_raise_last :
    ∀ (pairs : List (Nat × FileEnv)) (synced : Nat) (saved : List Nat)
      (r : FileResult),
      r ∈ (runFilesLoop pairs synced saved).fileResults →
      (r.outcome = .transferFailed ∨ r.outcome = .headerError ∨
        r.outcome = .emptyAckFailed) →
      (runFilesLoop pairs synced saved).retval = none ∧
      (runFilesLoop pairs synced saved).fileResults.getLast? = some r := by
  intro pairs
  induction pairs with
  | nil =>
    intro synced saved r hr hro
    rw [runFilesLoop] at hr
    simp at hr
  | cons p rest ih =>
    obtain ⟨i, f⟩ := p
    intro synced saved r hr hro
    rw [runFilesLoop] at hr ⊢
    cases houtc : (runFile f).outcome with
    | ackedEmpty =>
      rw [houtc] at hr
      have hr2 : r = runFile f ∨
          r ∈ (runFilesLoop rest (synced + 1) saved).fileResults :=
        List.mem_cons.mp hr
      rcases hr2 with rfl | htail
      · rw [houtc] at hro
        rcases hro with h | h | h <;> simp at h
      · have hrec := ih (synced + 1) saved r htail hro
        refine ⟨hrec.1, ?_⟩
        obtain ⟨b, l2, hbl⟩ :=
          List.exists_cons_of_ne_nil (List.ne_nil_of_mem htail)
        show (runFile f ::
          (runFilesLoop rest (synced + 1) saved).fileResults).getLast? = some r
        rw [hbl, List.getLast?_cons_cons, ← hbl]
        exact hrec.2
    | ackedFull =>
      rw [houtc] at hr
      have hr2 : r = runFile f ∨
          r ∈ (runFilesLoop rest (synced + 1) (saved ++ [i])).fileResults :=
        List.mem_cons.mp hr
      rcases hr2 with rfl | htail
      · rw [houtc] at hro
        rcases hro with h | h | h <;> simp at h
      · have hrec := ih (synced + 1) (saved ++ [i]) r htail hro
        refine ⟨hrec.1, ?_⟩
        obtain ⟨b, l2, hbl⟩ :=
          List.exists_cons_of_ne_nil (List.ne_nil_of_mem htail)
        show (runFile f ::
          (runFilesLoop rest (synced + 1) (saved ++ [i])).fileResults).getLast? =
            some r
        rw [hbl, List.getLast?_cons_cons, ← hbl]
        exact hrec.2
    | ackFailed =>
      rw [houtc] at hr
      have hr2 : r ∈ [runFile f] := hr
      have hr3 : r = runFile f := by simpa using hr2
      subst hr3
      rw [houtc] at hro
      rcases hro with h | h | h <;> simp at h
    | transferFailed =>
      rw [houtc] at hr
      have hr2 : r ∈ [runFile f] := hr
      have hr3 : r = runFile f := by simpa using hr2
      subst hr3
      exact ⟨rfl, rfl⟩
    | headerError =>
      rw [houtc] at hr
      have hr2 : r ∈ [runFile f] := hr
      have hr3 : r = runFile f := by simpa using hr2
      subst hr3
      exact ⟨rfl, rfl⟩
    | emptyAckFailed =>
      rw [houtc] at hr
      have hr2 : r ∈ [runFile f] := hr
      have hr3 : r = runFile f := by simpa using hr2
      subst hr3
      exact ⟨rfl, rfl⟩

theorem runSession_raise_last (env : SessionEnv) (r : FileResult)
    (hr : r ∈ (runSession env).fileResults)
    (hro : r.outcome = .transferFailed ∨ r.outcome = .headerError ∨
      r.outcome = .emptyAckFailed) :
    (runSession env).retval = none ∧
      (runSession env).fileResults.getLast? = some r := by
  rw [runSession] at hr ⊢
  split at hr
  case isTrue h => simp at hr
  case isFalse h =>
    rw [if_neg h]
    exact runFilesLoop_raise_last _ _ _ r hr hro

/-- Claim C3: a recording with positive declared size whose three transfer
attempts all end without accumulating the declared bytes makes `runFile`
raise the `RuntimeError` path (`transferFailed`) after consuming exactly
`MAX_FILE_TRANSFER_ATTEMPTS` attempts and producing no artifact, and such
an error aborts the whole session: the returned value is the
exception marker and no later index is processed. -/
theorem C3_retry_exhaustion_aborts_session :
    (∀ (f : FileEnv) (S : Nat), 0 < S →
      (runFileAttempts f).2.1.expected_size = S →
      (runFileAttempts f).2.1.outcome = .failed →
      (runFile f).outcome = .transferFailed ∧
        (runFile f).attemptsUsed = MAX_FILE_TRANSFER_ATTEMPTS ∧
        (runFile f).artifact = none) ∧
    ∀ (env : SessionEnv) (r : FileResult),
      r ∈ (runSession env).fileResults → r.outcome = .transferFailed →
      (runSession env).retval = none ∧
      (runSession env).fileResults.getLast? = some r := by
  constructor
  · intro f S hS hsize hfail
    obtain ⟨e, he⟩ := runFileAttempts_final f
    have haudio : (runFileAttempts f).2.1.audio_data = none := by
      rw [he] at hfail ⊢
      exact runAttempt_failed_audio e hfail
    have hcount : (runFileAttempts f).1 = MAX_FILE_TRANSFER_ATTEMPTS := by
      have h2 : (runFileAttempts f).1 = 3 := by
        rw [runFileAttempts_eq] at hfail ⊢
        exact runAttemptsFrom_failed_count _ _ hfail
      rw [h2]
      rfl
    have hne : ¬ (runFileAttempts f).2.1.expected_size = 0 := by
      rw [hsize]
      omega
    have hlen : ((runFileAttempts f).2.1.audio_data.getD []).length ≠
        (runFileAttempts f).2.1.expected_size := by
      rw [haudio, hsize]
      simp only [Option.getD_none, List.length_nil]
      omega
    rw [runFile, if_neg hne, if_pos hlen]
    exact ⟨rfl, hcount, rfl⟩
  · intro env r hr hro
    exact runSession_raise_last env r hr (Or.inl hro)

/-- Witness for C3: three attempt environments that deliver nothing for a
4-byte recording exhaust the budget; in a one-file session the failure
propagates as the session result. -/
theorem C3_retry_exhaustion_aborts_session_witness :
    ((runFile ⟨[⟨4, 0, [], []⟩, ⟨4, 0, [], []⟩, ⟨4, 0, [], []⟩],
        true⟩).outcome = .transferFailed ∧
      (runFile ⟨[⟨4, 0, [], []⟩, ⟨4, 0, [], []⟩, ⟨4, 0, [], []⟩],
        true⟩).attemptsUsed = MAX_FILE_TRANSFER_ATTEMPTS ∧
      (runFile ⟨[⟨4, 0, [], []⟩, ⟨4, 0, [], []⟩, ⟨4, 0, [], []⟩],
        true⟩).artifact = none) ∧
    ((runSession ⟨1, [⟨[⟨4, 0, [], []⟩, ⟨4, 0, [], []⟩, ⟨4, 0, [], []⟩],
        true⟩], true⟩).retval = none ∧
      (runSession ⟨1, [⟨[⟨4, 0, [], []⟩, ⟨4, 0, [], []⟩, ⟨4, 0, [], []⟩],
          true⟩], true⟩).fileResults.getLast? =
        some (runFile ⟨[⟨4, 0, [], []⟩, ⟨4, 0, [], []⟩, ⟨4, 0, [], []⟩],
          true⟩)) :=
  ⟨C3_retry_exhaustion_aborts_session.1
      ⟨[⟨4, 0, [], []⟩, ⟨4, 0, [], []⟩, ⟨4, 0, [], []⟩], true⟩ 4
      (by decide) (by decide) (by decide),
    C3_retry_exhaustion_aborts_session.2
      ⟨1, [⟨[⟨4, 0, [], []⟩, ⟨4, 0, [], []⟩, ⟨4, 0, [], []⟩], true⟩], true⟩
      (runFile ⟨[⟨4, 0, [], []⟩, ⟨4, 0, [], []⟩, ⟨4, 0, [], []⟩], true⟩)
      (by decide) (by decide)⟩

theorem runFilesLoop_ackFailed_last :
    ∀ (pairs : List (Nat × FileEnv)) (synced : Nat) (saved : List Nat)
      (r : FileResult),
      r ∈ (runFilesLoop pairs synced saved).fileResults →
      r.outcome = .ackFailed →
      (runFilesLoop pairs synced saved).fileResults.getLast? = some r ∧
      ∃ saved2, (runFilesLoop pairs synced saved).retval =
        some (synced +
          ((runFilesLoop pairs synced saved).fileResults.length - 1),
          saved2) := by
  intro pairs
  induction pairs with
  | nil =>
    intro synced saved r hr hro
    rw [runFilesLoop] at hr
    simp at hr
  | cons p rest ih =>
    obtain ⟨i, f⟩ := p
    intro synced saved r hr hro
    rw [runFilesLoop] at hr ⊢
    cases houtc : (runFile f).outcome with
    | ackedEmpty =>
      rw [houtc] at hr
      have hr2 : r = runFile f ∨
          r ∈ (runFilesLoop rest (synced + 1) saved).fileResults :=
        List.mem_cons.mp hr
      rcases hr2 with rfl | htail
      · rw [houtc] at hro
        simp at hro
      · obtain ⟨hlast, s2, hs2⟩ := ih (synced + 1) saved r htail hro
        obtain ⟨b, l2, hbl⟩ :=
          List.exists_cons_of_ne_nil (List.ne_nil_of_mem htail)
        constructor
        · show (runFile f ::
            (runFilesLoop rest (synced + 1) saved).fileResults).getLast? = some r
          rw [hbl, List.getLast?_cons_cons, ← hbl]
          exact hlast
        · refine ⟨s2, ?_⟩
          show (runFilesLoop rest (synced + 1) saved).retval =
            some (synced + ((runFile f ::
              (runFilesLoop rest (synced + 1) saved).fileResults).length - 1),
              s2)
          rw [hs2]
          have hpos : 0 <
              (runFilesLoop rest (synced + 1) saved).fileResults.length := by
            rw [hbl]
            simp
          have harith : synced + 1 +
              ((runFilesLoop rest (synced + 1) saved).fileResults.length - 1) =
              synced + ((runFile f ::
                (runFilesLoop rest (synced + 1) saved).fileResults).length -
                1) := by
            simp only [List.length_cons]
            omega
          rw [harith]
    | ackedFull =>
      rw [houtc] at hr
      have hr2 : r = runFile f ∨
          r ∈ (runFilesLoop rest (synced + 1) (saved ++ [i])).fileResults :=
        List.mem_cons.mp hr
      rcases hr2 with rfl | htail
      · rw [houtc] at hro
        simp at hro
      · obtain ⟨hlast, s2, hs2⟩ := ih (synced + 1) (saved ++ [i]) r htail hro
        obtain ⟨b, l2, hbl⟩ :=
          List.exists_cons_of_ne_nil (List.ne_nil_of_mem htail)
        constructor
        · show (runFile f ::
            (runFilesLoop rest (synced + 1) (saved ++ [i])).fileResults).getLast? =
              some r
          rw [hbl, List.getLast?_cons_cons, ← hbl]
          exact hlast
        · refine ⟨s2, ?_⟩
          show (runFilesLoop rest (synced + 1) (saved ++ [i])).retval =
            some (synced + ((runFile f ::
              (runFilesLoop rest (synced + 1) (saved ++ [i])).fileResults).length -
              1), s2)
          rw [hs2]
          have hpos : 0 <
              (runFilesLoop rest (synced + 1) (saved ++ [i])).fileResults.length := by
            rw [hbl]
            simp
          have harith : synced + 1 +
              ((runFilesLoop rest (synced + 1) (saved ++ [i])).fileResults.length -
                1) =
              synced + ((runFile f ::
                (runFilesLoop rest (synced + 1)
                  (saved ++ [i])).fileResults).length - 1) := by
            simp only [List.length_cons]
            omega
          rw [harith]
    | ackFailed =>
      rw [houtc] at hr
      have hr2 : r ∈ [runFile f] := hr
      have hr3 : r = runFile f := by simpa using hr2
      subst hr3
      refine ⟨rfl, saved ++ [i], ?_⟩
      show some (synced, saved ++ [i]) =
        some (synced + (([runFile f] : List FileResult).length - 1),
          saved ++ [i])
      simp
    | transferFailed =>
      rw [houtc] at hr
      have hr2 : r ∈ [runFile f] := hr
      have hr3 : r = runFile f := by simpa using hr2
      subst hr3
      rw [houtc] at hro
      simp at hro
    | headerError =>
      rw [houtc] at hr
      have hr2 : r ∈ [runFile f] := hr
      have hr3 : r = runFile f := by simpa using hr2
      subst hr3
      rw [houtc] at hro
      simp at hro
    | emptyAckFailed =>
      rw [houtc] at hr
      have hr2 : r ∈ [runFile f] := hr
      have hr3 : r = runFile f := by simpa using hr2
      subst hr3
      rw [houtc] at hro
      simp at hro

/-- Claim C4: a failed acknowledge write after a successful transfer makes
the session return normally (a value, not an exception), processing stops
with that file the last one processed, and the returned synced count is the
number of files acknowledged before it. -/
theorem C4_ack_failure_partial_success (env : SessionEnv) (r : FileResult)
    (hr : r ∈ (runSession env).fileResults) (ho : r.outcome = .ackFailed) :
    (runSession env).retval.isSome = true ∧
    (runSession env).fileResults.getLast? = some r ∧
    ∃ saved, (runSession env).retval =
      some ((runSession env).fileResults.length - 1, saved) := by
  rw [runSession] at hr ⊢
  split at hr
  case isTrue h => simp at hr
  case isFalse h =>
    rw [if_neg h]
    obtain ⟨hlast, s2, hs2⟩ := runFilesLoop_ackFailed_last _ 0 [] r hr ho
    refine ⟨by rw [hs2]; rfl, hlast, s2, ?_⟩
    rw [hs2]
    simp

/-- Witness for C4: one file transfers fine but its ACK write fails; the
session returns `(0, _)` with that file last. -/
theorem C4_ack_failure_partial_success_witness :
    (runSession ⟨1, [⟨[⟨4, 0, [[4, 0, 0, 0]], []⟩], false⟩],
        true⟩).retval.isSome = true ∧
    (runSession ⟨1, [⟨[⟨4, 0, [[4, 0, 0, 0]], []⟩], false⟩],
        true⟩).fileResults.getLast? =
      some (runFile ⟨[⟨4, 0, [[4, 0, 0, 0]], []⟩], false⟩) ∧
    ∃ saved, (runSession ⟨1, [⟨[⟨4, 0, [[4, 0, 0, 0]], []⟩], false⟩],
        true⟩).retval =
      some ((runSession ⟨1, [⟨[⟨4, 0, [[4, 0, 0, 0]], []⟩], false⟩],
        true⟩).fileResults.length - 1, saved) :=
  C4_ack_failure_partial_success
    ⟨1, [⟨[⟨4, 0, [[4, 0, 0, 0]], []⟩], false⟩], true⟩
    (runFile ⟨[⟨4, 0, [[4, 0, 0, 0]], []⟩], false⟩) (by decide) (by decide)

-- ## Lemmas for the header-size hazard

theorem unpack_u32_le_eq_none (bs : List Nat) (h : bs.length ≠ 4) :
    unpack_u32_le bs = none := by
  rcases bs with _ | ⟨a, _ | ⟨b, _ | ⟨c, _ | ⟨d, _ | ⟨e, rest⟩⟩⟩⟩⟩
  · rfl
  · rfl
  · rfl
  · rfl
  · simp at h
  · rfl

theorem encode_mp3_from_ima_pcm_short (ima_data : List Nat)
    (h : ima_data.length < IMA_HEADER_SIZE) :
    encode_mp3_from_ima_pcm ima_data = none := by
  have h4 : (ima_data.take IMA_HEADER_SIZE).length ≠ 4 := by
    rw [List.length_take]
    simp only [IMA_HEADER_SIZE] at h ⊢
    omega
  rw [encode_mp3_from_ima_pcm, unpack_u32_le_eq_none _ h4]

theorem runAttempt_success_expected_pos (env : AttemptEnv)
    (hs : (runAttempt env).outcome = .success) :
    (runAttempt env).expected_size ≠ 0 := by
  rw [runAttempt] at hs ⊢
  split at hs
  case isTrue => simp at hs
  case isFalse h0 =>
    split at hs
    case isTrue hle =>
      rw [if_neg h0, if_pos hle]
      exact h0
    case isFalse hle => simp at hs

/-- Claim C10: `encode_mp3_from_ima` unconditionally unpacks the first four
bytes of its input as the sample-count header, so any payload shorter than
`IMA_HEADER_SIZE` makes the unpack raise (`none` in the model); a recording
whose declared size is 1 to 3 therefore reaches the decode step with a
too-short payload and ends in the `headerError` outcome, which propagates
as a session-aborting exception. -/
theorem C10_short_payload_header_error :
    (∀ ima_data : List Nat, ima_data.length < IMA_HEADER_SIZE →
      encode_mp3_from_ima_pcm ima_data = none) ∧
    (∀ f : FileEnv,
      (runFileAttempts f).2.1.outcome = .success →
      (runFileAttempts f).2.1.expected_size < IMA_HEADER_SIZE →
      (runFile f).outcome = .headerError) ∧
    ∀ (env : SessionEnv) (r : FileResult),
      r ∈ (runSession env).fileResults → r.outcome = .headerError →
      (runSession env).retval = none := by
  refine ⟨fun ima h => encode_mp3_from_ima_pcm_short ima h, ?_, ?_⟩
  · intro f hsucc h4
    obtain ⟨e, he⟩ := runFileAttempts_final f
    have hsucc2 : (runAttempt e).outcome = .success := by
      rw [← he]
      exact hsucc
    obtain ⟨payload, hp, hplen⟩ := runAttempt_success_audio e hsucc2
    have hlen2 : ((runFileAttempts f).2.1.audio_data.getD []).length =
        (runFileAttempts f).2.1.expected_size := by
      rw [he, hp]
      simpa using hplen
    have hne : ¬ (runFileAttempts f).2.1.expected_size = 0 := by
      rw [he]
      exact runAttempt_success_expected_pos e hsucc2
    have hencode : encode_mp3_from_ima_pcm
        ((runFileAttempts f).2.1.audio_data.getD []) = none := by
      apply encode_mp3_from_ima_pcm_short
      rw [hlen2]
      exact h4
    rw [runFile, if_neg hne, if_neg (not_not_intro hlen2), hencode]
  · intro env r hr hro
    exact (runSession_raise_last env r hr (Or.inr (Or.inl hro))).1

/-- Witness for C10: a 2-byte payload has no complete header; a recording
declaring 2 bytes transfers fine and then dies in the header unpack,
aborting its one-file session. -/
theorem C10_short_payload_header_error_witness :
    encode_mp3_from_ima_pcm [1, 2] = none ∧
    (runFile ⟨[⟨2, 0, [[7, 7]], []⟩], true⟩).outcome = .headerError ∧
    (runSession ⟨1, [⟨[⟨2, 0, [[7, 7]], []⟩], true⟩], true⟩).retval = none :=
  ⟨C10_short_payload_header_error.1 [1, 2] (by decide),
    C10_short_payload_header_error.2.1 ⟨[⟨2, 0, [[7, 7]], []⟩], true⟩
      (by decide) (by decide),
    C10_short_payload_header_error.2.2
      ⟨1, [⟨[⟨2, 0, [[7, 7]], []⟩], true⟩], true⟩
      (runFile ⟨[⟨2, 0, [[7, 7]], []⟩], true⟩) (by decide) (by decide)⟩

-- ## SYNC_DONE accounting

theorem runFilesLoop_syncDone_iff :
    ∀ (pairs : List (Nat × FileEnv)) (synced : Nat) (saved : List Nat),
      (runFilesLoop pairs synced saved).syncDoneAttempted = true ↔
      ∀ r ∈ (runFilesLoop pairs synced saved).fileResults,
        r.outcome = .ackedEmpty ∨ r.outcome = .ackedFull := by
  intro pairs
  induction pairs with
  | nil =>
    intro synced saved
    rw [runFilesLoop]
    simp
  | cons p rest ih =>
    obtain ⟨i, f⟩ := p
    intro synced saved
    rw [runFilesLoop]
    cases houtc : (runFile f).outcome with
    | ackedEmpty =>
      constructor
      · intro hsd r hr
        have hr2 : r = runFile f ∨
            r ∈ (runFilesLoop rest (synced + 1) saved).fileResults :=
          List.mem_cons.mp hr
        rcases hr2 with rfl | htail
        · exact Or.inl houtc
        · exact ((ih (synced + 1) saved).mp hsd) r htail
      · intro hall
        show (runFilesLoop rest (synced + 1) saved).syncDoneAttempted = true
        rw [ih (synced + 1) saved]
        intro r hr
        exact hall r (List.mem_cons_of_mem _ hr)
    | ackedFull =>
      constructor
      · intro hsd r hr
        have hr2 : r = runFile f ∨
            r ∈ (runFilesLoop rest (synced + 1) (saved ++ [i])).fileResults :=
          List.mem_cons.mp hr
        rcases hr2 with rfl | htail
        · exact Or.inr houtc
        · exact ((ih (synced + 1) (saved ++ [i])).mp hsd) r htail
      · intro hall
        show (runFilesLoop rest (synced + 1) (saved ++ [i])).syncDoneAttempted =
          true
        rw [ih (synced + 1) (saved ++ [i])]
        intro r hr
        exact hall r (List.mem_cons_of_mem _ hr)
    | ackFailed =>
      constructor
      · intro hsd
        have h2 : (false : Bool) = true := hsd
        exact Bool.noConfusion h2
      · intro hall
        have hx := hall (runFile f) (List.mem_cons_self _ _)
        rw [houtc] at hx
        rcases hx with hx | hx <;> exact FileOutcome.noConfusion hx
    | transferFailed =>
      constructor
      · intro hsd
        have h2 : (false : Bool) = true := hsd
        exact Bool.noConfusion h2
      · intro hall
        have hx := hall (runFile f) (List.mem_cons_self _ _)
        rw [houtc] at hx
        rcases hx with hx | hx <;> exact FileOutcome.noConfusion hx
    | headerError =>
      constructor
      · intro hsd
        have h2 : (false : Bool) = true := hsd
        exact Bool.noConfusion h2
      · intro hall
        have hx := hall (runFile f) (List.mem_cons_self _ _)
        rw [houtc] at hx
        rcases hx with hx | hx <;> exact FileOutcome.noConfusion hx
    | emptyAckFailed =>
      constructor
      · intro hsd
        have h2 : (false : Bool) = true := hsd
        exact Bool.noConfusion h2
      · intro hall
        have hx := hall (runFile f) (List.mem_cons_self _ _)
        rw [houtc] at hx
        rcases hx with hx | hx <;> exact FileOutcome.noConfusion hx

/-- Counterexample to claim C2 as stated: the SYNC_DONE write is not
attempted exactly once per session regardless of per-file outcomes — a
session whose reported file count is zero returns at once without
attempting it, and a session whose only acknowledge write fails returns
early without attempting it either. -/
theorem C2_sync_done_counterexample :
    (runSession ⟨0, [], true⟩).syncDoneAttempted = false ∧
    (runSession ⟨0, [], true⟩).retval = some (0, []) ∧
    (runSession ⟨1, [⟨[⟨4, 0, [[4, 0, 0, 0]], []⟩], false⟩],
      true⟩).syncDoneAttempted = false ∧
    (runSession ⟨1, [⟨[⟨4, 0, [[4, 0, 0, 0]], []⟩], false⟩],
      true⟩).retval = some (0, [0]) := by
  refine ⟨rfl, rfl, ?_, ?_⟩ <;> decide

/-- Amended claim C2: the session-terminal SYNC_DONE write is attempted
(exactly once) precisely when the reported file count is positive and every
processed recording ended acknowledged — it is skipped when the file count
is zero, when the index loop exits early because an acknowledge write
failed, and when a raised error aborts the session; a failure of the
SYNC_DONE write itself is logged only and never escalated: no component of
the session result depends on its success. -/
theorem C2_sync_done_amended (env : SessionEnv) :
    ((runSession env).syncDoneAttempted = true ↔
      (0 < env.fileCount ∧ ∀ r ∈ (runSession env).fileResults,
        r.outcome = .ackedEmpty ∨ r.outcome = .ackedFull)) ∧
    ∀ b : Bool, runSession ⟨env.fileCount, env.files, b⟩ = runSession env := by
  constructor
  · rw [runSession]
    split
    case isTrue h => simp [h]
    case isFalse h =>
      rw [runFilesLoop_syncDone_iff]
      have hpos : 0 < env.fileCount := Nat.pos_of_ne_zero h
      simp [hpos]
  · intro b
    rfl

-- ## PCM8 lemmas

theorem pcm8_sample_bytes (u : Nat) (_hu : u < 256) :
    ((((u : Int) - 128) * 2 ^ 8) % 65536).toNat % 256 = 0 ∧
    ((((u : Int) - 128) * 2 ^ 8) % 65536).toNat / 256 = (u + 128) % 256 := by
  have h2 : ((u : Int) - 128) * 2 ^ 8 = ((u : Int) - 128) * 256 := by norm_num
  rw [h2]
  omega

theorem decode_pcm8_cons (u : Nat) (rest : List Nat) :
    decode_pcm8 (u :: rest) =
      emitLE16 (((u : Int) - 128) * 2 ^ 8) ++ decode_pcm8 rest := by
  simp only [decode_pcm8, List.flatMap_cons]

theorem decode_pcm8_eq_centered (data : List Nat) :
    (∀ u ∈ data, u < 256) →
    decode_pcm8 data = data.flatMap (fun u => [0, (u + 128) % 256]) := by
  induction data with
  | nil => intro h; rfl
  | cons u rest ih =>
    intro h
    have hu : u < 256 := h u (List.mem_cons_self _ _)
    have hrest : ∀ v ∈ rest, v < 256 := fun v hv =>
      h v (List.mem_cons_of_mem _ hv)
    have hb : emitLE16 (((u : Int) - 128) * 2 ^ 8) = [0, (u + 128) % 256] := by
      rw [emitLE16]
      obtain ⟨h1, h2⟩ := pcm8_sample_bytes u hu
      rw [h1, h2]
    rw [decode_pcm8_cons, hb, ih hrest, List.flatMap_cons]

theorem decode_pcm8_length (data : List Nat) :
    (decode_pcm8 data).length = 2 * data.length := by
  induction data with
  | nil => rfl
  | cons u rest ih =>
    rw [decode_pcm8_cons, List.length_append, ih]
    simp only [emitLE16, List.length_cons, List.length_nil]
    omega

/-- Claim C9: the PCM8 decoder variant (modelled from the spec, since only
the ADPCM variant ships in sync.py and the variant choice is a static
firmware-generation selection) maps each unsigned 8-bit sample `u` to the
signed 16-bit value `(u - 128) << 8` emitted little-endian: the low output
byte is always 0 and the high byte is `(u + 128) mod 256`, with exactly two
output bytes per input sample. -/
theorem C9_pcm8_variant (data : List Nat) (h : ∀ u ∈ data, u < 256) :
    decode_pcm8 data = data.flatMap (fun u => [0, (u + 128) % 256]) ∧
    (decode_pcm8 data).length = 2 * data.length :=
  ⟨decode_pcm8_eq_centered data h, decode_pcm8_length data⟩

/-- Witness for C9: the four corner samples 0, 127, 128, 255. -/
theorem C9_pcm8_variant_witness :
    decode_pcm8 [0, 127, 128, 255] =
      ([0, 127, 128, 255] : List Nat).flatMap (fun u => [0, (u + 128) % 256]) ∧
    (decode_pcm8 [0, 127, 128, 255]).length =
      2 * ([0, 127, 128, 255] : List Nat).length :=
  C9_pcm8_variant [0, 127, 128, 255] (by decide)
